import Mathlib

/-!
Shallow embedding of the filtering/pagination core of `src/components/App.jsx`:
author-option derivation, author filtering, page math, and the two state
transitions (`handleAuthorChange`, `handlePageChange`), together with proofs of
the specified properties.
-/

namespace App

/-- Author record of a post: `name` is the grouping key, `avatar` is opaque. -/
structure Author where
  name : String
  avatar : String
deriving DecidableEq, Repr

/-- Category record carried by a post. -/
structure Category where
  id : Nat
  name : String
deriving DecidableEq, Repr

/-- A post of the collection (shape of `data.json` entries per the data model). -/
structure Post where
  id : Nat
  author : Author
  title : String
  summary : String
  publishDate : String
  categories : List Category
deriving DecidableEq, Repr

/-- An entry of the select dropdown: `{value, label}`. -/
structure AuthorOption where
  value : String
  label : String
deriving DecidableEq, Repr

/-- `const POSTS_PER_PAGE = 3`. -/
def POSTS_PER_PAGE : Nat := 3

/-- `Array.from(new Set(postData.posts.map((post) => post.author.name)))`:
JavaScript `Set` iteration order is insertion order, so this deduplicates
keeping the first occurrence of each name. -/
def uniqueAuthors (posts : List Post) : List String :=
  (posts.map (fun post => post.author.name)).foldl
    (fun acc name => if name ∈ acc then acc else acc ++ [name]) []

/-- The `"Show All"` sentinel option `{ value: "", label: "Show All" }`. -/
def showAllOption : AuthorOption :=
  { value := "", label := "Show All" }

/-- `authorOptions = [{ value: "", label: "Show All" }, ...uniqueAuthors.map(author => ({value: author, label: author}))]`. -/
def authorOptions (posts : List Post) : List AuthorOption :=
  showAllOption ::
    (uniqueAuthors posts).map (fun author => { value := author, label := author })

/-- `selectedAuthor?.value ? posts.filter(post => post.author.name === selectedAuthor.value) : posts`.
`selectedAuthor` is `null` (cleared / initial) or a selected option; the
JavaScript condition is falsy exactly when the selection is `null` or its
`value` is the empty string. -/
def filteredPosts (posts : List Post) (selectedAuthor : Option AuthorOption) : List Post :=
  match selectedAuthor with
  | none => posts
  | some opt =>
      if opt.value = "" then posts
      else posts.filter (fun post => post.author.name == opt.value)

/-- `pageCount = Math.ceil(filteredPosts.length / POSTS_PER_PAGE)`: exact
division then ceiling, modelled over the rationals. -/
def pageCount (filtered : List Post) : Nat :=
  ⌈(filtered.length : ℚ) / (POSTS_PER_PAGE : ℚ)⌉₊

/-- `offset = currentPage * POSTS_PER_PAGE`. -/
def offset (currentPage : Nat) : Nat :=
  currentPage * POSTS_PER_PAGE

/-- JavaScript `Array.prototype.slice(b, e)` for non-negative indices:
elements at positions `b ≤ i < min e length`; total, never throws. -/
def jsSlice (l : List α) (b e : Nat) : List α :=
  (l.take e).drop b

/-- `currentPagePosts = filteredPosts.slice(offset, offset + POSTS_PER_PAGE)`. -/
def currentPagePosts (filtered : List Post) (currentPage : Nat) : List Post :=
  jsSlice filtered (offset currentPage) (offset currentPage + POSTS_PER_PAGE)

/-- Condition of line 148: the pagination control is rendered iff
`filteredPosts.length > POSTS_PER_PAGE`. -/
def showPagination (filtered : List Post) : Bool :=
  POSTS_PER_PAGE < filtered.length

/-- The two `useState` cells of the component. -/
structure ViewState where
  selectedAuthor : Option AuthorOption
  currentPage : Nat
deriving DecidableEq, Repr

/-- Initial state: `useState(null)`, `useState(0)`. -/
def initState : ViewState :=
  { selectedAuthor := none, currentPage := 0 }

/-- `handleAuthorChange(selectedOption)`: `setSelectedAuthor(selectedOption); setCurrentPage(0)`. -/
def handleAuthorChange (s : ViewState) (selectedOption : Option AuthorOption) : ViewState :=
  { s with selectedAuthor := selectedOption, currentPage := 0 }

/-- `handlePageChange(selectedPage)`: `setCurrentPage(selectedPage.selected)`. -/
def handlePageChange (s : ViewState) (selected : Nat) : ViewState :=
  { s with currentPage := selected }

/-- States reachable from the initial state under the documented precondition:
`ReactPaginate` only emits page indices in `[0, pageCount)` for the page count
current at the time of the event. Author-change events are unconstrained. -/
inductive Reachable (posts : List Post) : ViewState → Prop
  | init : Reachable posts initState
  | authorChange (s : ViewState) (opt : Option AuthorOption) :
      Reachable posts s → Reachable posts (handleAuthorChange s opt)
  | pageChange (s : ViewState) (i : Nat) :
      Reachable posts s →
      i < pageCount (filteredPosts posts s.selectedAuthor) →
      Reachable posts (handlePageChange s i)

/-- Modelled from the spec: collect the author name of each post into a
set-with-order (insertion-order deduplication) — a name is added only the
first time it is seen. `seen` is the set of names already emitted. -/
def specDedupFirstSeen (seen : List String) : List String → List String
  | [] => []
  | x :: xs =>
      if x ∈ seen then specDedupFirstSeen seen xs
      else x :: specDedupFirstSeen (x :: seen) xs

/-! ### Helper lemmas -/

lemma specDedupFirstSeen_congr (l : List String) :
    ∀ s1 s2 : List String, (∀ a, a ∈ s1 ↔ a ∈ s2) →
      specDedupFirstSeen s1 l = specDedupFirstSeen s2 l := by
  induction l with
  | nil => intro s1 s2 _; rfl
  | cons x xs ih =>
      intro s1 s2 h
      simp only [specDedupFirstSeen]
      by_cases hx : x ∈ s1
      · rw [if_pos hx, if_pos ((h x).mp hx)]
        exact ih s1 s2 h
      · rw [if_neg hx, if_neg (fun hc => hx ((h x).mpr hc))]
        have : ∀ a, a ∈ x :: s1 ↔ a ∈ x :: s2 := by
          intro a; simp only [List.mem_cons]; rw [h a]
        rw [ih (x :: s1) (x :: s2) this]

lemma foldl_addName (l : List String) :
    ∀ acc : List String,
      l.foldl (fun acc name => if name ∈ acc then acc else acc ++ [name]) acc
        = acc ++ specDedupFirstSeen acc l := by
  induction l with
  | nil => intro acc; simp [specDedupFirstSeen]
  | cons x xs ih =>
      intro acc
      simp only [List.foldl_cons, specDedupFirstSeen]
      by_cases hx : x ∈ acc
      · rw [if_pos hx, if_pos hx, ih acc]
      · rw [if_neg hx, if_neg hx, ih (acc ++ [x])]
        have hmem : ∀ a, a ∈ acc ++ [x] ↔ a ∈ x :: acc := by
          intro a; simp [List.mem_append, List.mem_cons, or_comm]
        rw [specDedupFirstSeen_congr xs (acc ++ [x]) (x :: acc) hmem]
        simp

lemma uniqueAuthors_eq_specDedup (posts : List Post) :
    uniqueAuthors posts
      = specDedupFirstSeen [] (posts.map (fun post => post.author.name)) := by
  unfold uniqueAuthors
  rw [foldl_addName]
  simp

lemma mem_specDedupFirstSeen {a : String} (l : List String) :
    ∀ seen : List String, a ∈ specDedupFirstSeen seen l ↔ a ∈ l ∧ a ∉ seen := by
  induction l with
  | nil => intro seen; simp [specDedupFirstSeen]
  | cons x xs ih =>
      intro seen
      simp only [specDedupFirstSeen]
      by_cases hx : x ∈ seen
      · rw [if_pos hx, ih seen]
        constructor
        · rintro ⟨h1, h2⟩; exact ⟨List.mem_cons_of_mem x h1, h2⟩
        · rintro ⟨h1, h2⟩
          rcases List.mem_cons.mp h1 with rfl | h1
          · exact absurd hx h2
          · exact ⟨h1, h2⟩
      · rw [if_neg hx]
        simp only [List.mem_cons, ih (x :: seen), List.mem_cons]
        constructor
        · rintro (rfl | ⟨h1, h2⟩)
          · exact ⟨Or.inl rfl, hx⟩
          · exact ⟨Or.inr h1, fun hc => h2 (Or.inr hc)⟩
        · rintro ⟨rfl | h1, h2⟩
          · exact Or.inl rfl
          · by_cases hax : a = x
            · exact Or.inl hax
            · exact Or.inr ⟨h1, fun hc => hc.elim hax h2⟩

lemma nodup_specDedupFirstSeen (l : List String) :
    ∀ seen : List String, (specDedupFirstSeen seen l).Nodup := by
  induction l with
  | nil => intro seen; simp [specDedupFirstSeen]
  | cons x xs ih =>
      intro seen
      simp only [specDedupFirstSeen]
      by_cases hx : x ∈ seen
      · rw [if_pos hx]; exact ih seen
      · rw [if_neg hx]
        refine List.nodup_cons.mpr ⟨?_, ih (x :: seen)⟩
        intro hc
        exact ((mem_specDedupFirstSeen xs (x :: seen)).mp hc).2 (List.mem_cons_self x seen)

lemma mem_uniqueAuthors (posts : List Post) (a : String) :
    a ∈ uniqueAuthors posts ↔ a ∈ posts.map (fun post => post.author.name) := by
  rw [uniqueAuthors_eq_specDedup, mem_specDedupFirstSeen]
  simp

lemma nodup_uniqueAuthors (posts : List Post) : (uniqueAuthors posts).Nodup := by
  rw [uniqueAuthors_eq_specDedup]
  exact nodup_specDedupFirstSeen _ []

lemma length_uniqueAuthors (posts : List Post) :
    (uniqueAuthors posts).length
      = (posts.map (fun post => post.author.name)).dedup.length := by
  have h1 : (uniqueAuthors posts).Nodup := nodup_uniqueAuthors posts
  have h2 : (posts.map (fun post => post.author.name)).dedup.Nodup :=
    List.nodup_dedup _
  have hfin : (uniqueAuthors posts).toFinset
      = (posts.map (fun post => post.author.name)).dedup.toFinset := by
    ext a
    simp only [List.mem_toFinset, List.mem_dedup]
    exact mem_uniqueAuthors posts a
  calc (uniqueAuthors posts).length
      = (uniqueAuthors posts).toFinset.card := (List.toFinset_card_of_nodup h1).symm
    _ = (posts.map (fun post => post.author.name)).dedup.toFinset.card := by rw [hfin]
    _ = (posts.map (fun post => post.author.name)).dedup.length :=
        List.toFinset_card_of_nodup h2

lemma currentPagePosts_eq_drop_take (filtered : List Post) (page : Nat) :
    currentPagePosts filtered page
      = (filtered.drop (offset page)).take POSTS_PER_PAGE := by
  unfold currentPagePosts jsSlice
  exact (List.take_drop (offset page) POSTS_PER_PAGE filtered).symm

lemma length_currentPagePosts (filtered : List Post) (page : Nat) :
    (currentPagePosts filtered page).length
      = min POSTS_PER_PAGE (filtered.length - offset page) := by
  unfold currentPagePosts jsSlice offset POSTS_PER_PAGE
  simp only [List.length_drop, List.length_take]
  omega

lemma currentPagePosts_nil (page : Nat) :
    currentPagePosts ([] : List Post) page = [] := by
  simp [currentPagePosts, jsSlice]

lemma sum_min_three (n q : Nat) :
    (∑ p ∈ Finset.range q, min 3 (n - 3 * p)) = min n (3 * q) := by
  induction q with
  | zero => simp
  | succ q ih => rw [Finset.sum_range_succ, ih]; omega

lemma pageCount_eq (filtered : List Post) :
    pageCount filtered = (filtered.length + 2) / 3 := by
  unfold pageCount POSTS_PER_PAGE
  set n := filtered.length with hn
  apply le_antisymm
  · rw [Nat.ceil_le, div_le_iff₀ (by norm_num : (0:ℚ) < (3:ℕ))]
    have h : n ≤ (n + 2) / 3 * 3 := by omega
    exact_mod_cast h
  · by_contra h
    push_neg at h
    have h2 : ⌈(n : ℚ) / ((3:ℕ) : ℚ)⌉₊ ≤ (n + 2) / 3 - 1 := by omega
    rw [Nat.ceil_le, div_le_iff₀ (by norm_num : (0:ℚ) < (3:ℕ))] at h2
    have h3 : n ≤ ((n + 2) / 3 - 1) * 3 := by exact_mod_cast h2
    omega

lemma pageCount_pos (l : List Post) (h : l ≠ []) : 0 < pageCount l := by
  rw [pageCount_eq]
  have hl : l.length ≠ 0 := fun hc => h (List.length_eq_zero.mp hc)
  omega

/-- A sample post, used to instantiate the theorems at concrete inputs. -/
def mkPost (name : String) : Post :=
  { id := 0, author := { name := name, avatar := "" }, title := "", summary := "",
    publishDate := "", categories := [] }

/-! ### Claim theorems -/

/-- C1 (amended: the post collection contains no author literally named the
empty string, as the data model assumes): `authorOptions` is the "Show All"
sentinel followed by one option `{value: name, label: name}` per distinct
author name in first-appearance order (the spec-side insertion-order
deduplication), with no repeated name, total length `1 + |distinct names|`,
pairwise distinct `value`s, and the singleton `[showAllOption]` on the empty
collection. -/
theorem C1_authorOptions_shape (posts : List Post)
    (hno : "" ∉ posts.map (fun post => post.author.name)) :
    authorOptions posts
        = showAllOption ::
            (uniqueAuthors posts).map (fun n => { value := n, label := n })
      ∧ uniqueAuthors posts
          = specDedupFirstSeen [] (posts.map (fun post => post.author.name))
      ∧ (∀ n, n ∈ uniqueAuthors posts ↔ n ∈ posts.map (fun post => post.author.name))
      ∧ (uniqueAuthors posts).Nodup
      ∧ (authorOptions posts).length
          = 1 + (posts.map (fun post => post.author.name)).dedup.length
      ∧ ((authorOptions posts).map (fun o => o.value)).Nodup
      ∧ authorOptions ([] : List Post) = [showAllOption] := by
  refine ⟨rfl, uniqueAuthors_eq_specDedup posts, mem_uniqueAuthors posts,
    nodup_uniqueAuthors posts, ?_, ?_, rfl⟩
  · simp only [authorOptions, List.length_cons, List.length_map,
      length_uniqueAuthors posts]
    omega
  · have hv : (authorOptions posts).map (fun o => o.value)
        = "" :: uniqueAuthors posts := by
      simp only [authorOptions, showAllOption, List.map_cons, List.map_map]
      congr 1
      show List.map (fun a => a) (uniqueAuthors posts) = uniqueAuthors posts
      exact List.map_id' (uniqueAuthors posts)
    rw [hv, List.nodup_cons]
    exact ⟨fun hc => hno ((mem_uniqueAuthors posts "").mp hc),
      nodup_uniqueAuthors posts⟩

/-- C1 counterexample: on a collection containing a post whose author is
literally named `""`, the sentinel and the option derived from that author
share the value `""`, so the claimed "no two elements share a value" fails. -/
theorem C1_counterexample :
    ((authorOptions [mkPost ""]).map (fun o => o.value)) = ["", ""]
      ∧ ¬ (((authorOptions [mkPost ""]).map (fun o => o.value)).Nodup) := by
  constructor
  · rfl
  · decide

/-- C1 witness: the amended theorem instantiated on a concrete collection with
a repeated author. -/
theorem C1_witness :
    ("" ∉ ([mkPost "Alice", mkPost "Bob", mkPost "Alice"]).map
        (fun post => post.author.name))
      ∧ (authorOptions [mkPost "Alice", mkPost "Bob", mkPost "Alice"]).length
          = 1 + (([mkPost "Alice", mkPost "Bob", mkPost "Alice"]).map
              (fun post => post.author.name)).dedup.length :=
  ⟨by decide,
    (C1_authorOptions_shape [mkPost "Alice", mkPost "Bob", mkPost "Alice"]
      (by decide)).2.2.2.2.1⟩

/-- C2: for a non-sentinel selection the filtered list is the order-preserving
subsequence of posts whose author name equals the selected value (exactly the
matching posts), and for both sentinel representations (null selection, or an
option carrying the empty-string value) it is the full collection unchanged. -/
theorem C2_filteredPosts (posts : List Post) (opt : AuthorOption) :
    (opt.value ≠ "" →
        (filteredPosts posts (some opt)).Sublist posts
          ∧ (∀ p ∈ filteredPosts posts (some opt), p.author.name = opt.value)
          ∧ (∀ p ∈ posts, p.author.name = opt.value →
              p ∈ filteredPosts posts (some opt))
          ∧ filteredPosts posts (some opt)
              = posts.filter (fun post => post.author.name == opt.value))
      ∧ filteredPosts posts none = posts
      ∧ (opt.value = "" → filteredPosts posts (some opt) = posts) := by
  refine ⟨?_, rfl, ?_⟩
  · intro hv
    have heq : filteredPosts posts (some opt)
        = posts.filter (fun post => post.author.name == opt.value) := by
      simp [filteredPosts, hv]
    refine ⟨?_, ?_, ?_, heq⟩
    · rw [heq]; exact List.filter_sublist posts
    · intro p hp
      rw [heq] at hp
      simpa using List.of_mem_filter hp
    · intro p hp hn
      rw [heq]
      exact List.mem_filter.mpr ⟨hp, by simp [hn]⟩
  · intro hv
    simp [filteredPosts, hv]

/-- C2 witness: filtering a two-author collection by "Alice". -/
theorem C2_witness :
    ("Alice" : String) ≠ ""
      ∧ filteredPosts [mkPost "Alice", mkPost "Bob"]
            (some { value := "Alice", label := "Alice" })
          = ([mkPost "Alice", mkPost "Bob"]).filter
              (fun post => post.author.name == "Alice") :=
  ⟨by decide,
    ((C2_filteredPosts [mkPost "Alice", mkPost "Bob"]
      { value := "Alice", label := "Alice" }).1 (by decide)).2.2.2⟩

/-- C3: `pageCount` is ceiling division of the filtered length by 3 (the
natural-number ceiling `(len + 3 - 1) / 3`), and is 0 on the empty list. -/
theorem C3_pageCount_ceil (filtered : List Post) :
    pageCount filtered
        = (filtered.length + POSTS_PER_PAGE - 1) / POSTS_PER_PAGE
      ∧ pageCount ([] : List Post) = 0 := by
  constructor
  · rw [pageCount_eq]
    simp only [POSTS_PER_PAGE]
    omega
  · rw [pageCount_eq]
    rfl

/-- C4: the current page is the slice of the filtered list from
`offset = currentPage * 3` of length at most 3 (`drop` then `take`, i.e. the
upper bound clamped to the length); its length is `min 3 (len - offset)`, and
once the offset reaches or passes the length the result is empty (the
computation is total, never failing). -/
theorem C4_currentPagePosts_slice (filtered : List Post) (page : Nat) :
    currentPagePosts filtered page
        = (filtered.drop (offset page)).take POSTS_PER_PAGE
      ∧ (currentPagePosts filtered page).length
          = min POSTS_PER_PAGE (filtered.length - offset page)
      ∧ (filtered.length ≤ offset page → currentPagePosts filtered page = []) := by
  refine ⟨currentPagePosts_eq_drop_take filtered page,
    length_currentPagePosts filtered page, ?_⟩
  intro h
  have hl := length_currentPagePosts filtered page
  have h0 : (currentPagePosts filtered page).length = 0 := by
    rw [hl]
    omega
  exact List.length_eq_zero.mp h0

/-- C4 witness: page 1 of a one-post list is empty. -/
theorem C4_witness :
    ([mkPost "A"] : List Post).length ≤ offset 1
      ∧ currentPagePosts [mkPost "A"] 1 = [] :=
  ⟨by decide, (C4_currentPagePosts_slice [mkPost "A"] 1).2.2 (by decide)⟩

/-- C5: for every prior state, `handleAuthorChange` stores the new selection
and resets the current page to 0, regardless of the prior page. -/
theorem C5_handleAuthorChange_resets (s : ViewState) (opt : Option AuthorOption) :
    (handleAuthorChange s opt).selectedAuthor = opt
      ∧ (handleAuthorChange s opt).currentPage = 0 :=
  ⟨rfl, rfl⟩

/-- C6: the pages for `p` in `[0, pageCount)` partition the filtered list:
their lengths sum to the length of the list, and every page other than possibly the
last has exactly `POSTS_PER_PAGE = 3` items. -/
theorem C6_pages_partition (filtered : List Post) :
    (∑ p ∈ Finset.range (pageCount filtered),
        (currentPagePosts filtered p).length) = filtered.length
      ∧ (∀ p : Nat, p + 1 < pageCount filtered →
          (currentPagePosts filtered p).length = POSTS_PER_PAGE) := by
  constructor
  · have hsum : ∀ p ∈ Finset.range (pageCount filtered),
        (currentPagePosts filtered p).length
          = min 3 (filtered.length - 3 * p) := by
      intro p _
      rw [length_currentPagePosts]
      simp only [POSTS_PER_PAGE, offset]
      omega
    rw [Finset.sum_congr rfl hsum, sum_min_three, pageCount_eq]
    omega
  · intro p hp
    rw [pageCount_eq] at hp
    rw [length_currentPagePosts]
    simp only [POSTS_PER_PAGE, offset]
    omega

/-- C6 witness: with four posts there are two pages and page 0 is full. -/
theorem C6_witness :
    0 + 1 < pageCount [mkPost "B", mkPost "B", mkPost "B", mkPost "B"]
      ∧ (currentPagePosts [mkPost "B", mkPost "B", mkPost "B", mkPost "B"] 0).length
          = POSTS_PER_PAGE :=
  ⟨by rw [pageCount_eq]; decide,
    (C6_pages_partition [mkPost "B", mkPost "B", mkPost "B", mkPost "B"]).2 0
      (by rw [pageCount_eq]; decide)⟩

/-- C7: the pagination control is rendered iff the filtered list has strictly
more than `POSTS_PER_PAGE = 3` posts; with exactly 3 matching posts the page
count is 1 and the control is hidden. -/
theorem C7_showPagination_iff (filtered : List Post) :
    (showPagination filtered = true ↔ POSTS_PER_PAGE < filtered.length)
      ∧ (filtered.length = 3 →
          pageCount filtered = 1 ∧ showPagination filtered = false) := by
  constructor
  · simp [showPagination]
  · intro h
    constructor
    · rw [pageCount_eq, h]
    · simp [showPagination, h, POSTS_PER_PAGE]

/-- C7 witness: exactly three posts give one page and no control. -/
theorem C7_witness :
    ([mkPost "A", mkPost "A", mkPost "A"] : List Post).length = 3
      ∧ pageCount [mkPost "A", mkPost "A", mkPost "A"] = 1
      ∧ showPagination [mkPost "A", mkPost "A", mkPost "A"] = false :=
  ⟨rfl, (C7_showPagination_iff [mkPost "A", mkPost "A", mkPost "A"]).2 rfl⟩

/-- C8: in every state reachable from the initial state, assuming page-change
events only carry indices below the page count current at the event, the
current page stays below the page count — except when the page count is 0 (no
matching posts), in which case the visible page is empty. -/
theorem C8_currentPage_invariant (posts : List Post) (s : ViewState)
    (h : Reachable posts s) :
    s.currentPage < pageCount (filteredPosts posts s.selectedAuthor)
      ∨ (pageCount (filteredPosts posts s.selectedAuthor) = 0
          ∧ currentPagePosts (filteredPosts posts s.selectedAuthor)
              s.currentPage = []) := by
  induction h with
  | init =>
      by_cases hp : filteredPosts posts initState.selectedAuthor = []
      · right
        refine ⟨?_, ?_⟩
        · rw [hp, pageCount_eq]
          rfl
        · rw [hp]
          exact currentPagePosts_nil _
      · left
        exact pageCount_pos _ hp
  | authorChange s opt hs ih =>
      by_cases hp : filteredPosts posts (handleAuthorChange s opt).selectedAuthor = []
      · right
        refine ⟨?_, ?_⟩
        · rw [hp, pageCount_eq]
          rfl
        · rw [hp]
          exact currentPagePosts_nil _
      · left
        exact pageCount_pos _ hp
  | pageChange s i hs hi ih =>
      left
      exact hi

/-- C8 witness: the invariant at the initial state over a one-post collection. -/
theorem C8_witness :
    initState.currentPage
        < pageCount (filteredPosts [mkPost "A"] initState.selectedAuthor)
      ∨ (pageCount (filteredPosts [mkPost "A"] initState.selectedAuthor) = 0
          ∧ currentPagePosts (filteredPosts [mkPost "A"] initState.selectedAuthor)
              initState.currentPage = []) :=
  C8_currentPage_invariant [mkPost "A"] initState Reachable.init

/-- C9: a selection carrying the explicit empty-string "Show All" value and
the null (cleared) selection are observationally equivalent: same filtered
list, hence same page count and same visible page for every page index. -/
theorem C9_sentinel_equivalence (posts : List Post) (lab : String) :
    filteredPosts posts (some { value := "", label := lab })
        = filteredPosts posts none
      ∧ pageCount (filteredPosts posts (some { value := "", label := lab }))
          = pageCount (filteredPosts posts none)
      ∧ (∀ page : Nat,
          currentPagePosts (filteredPosts posts (some { value := "", label := lab })) page
            = currentPagePosts (filteredPosts posts none) page) := by
  have h : filteredPosts posts (some { value := "", label := lab })
      = filteredPosts posts none := by
    simp [filteredPosts]
  exact ⟨h, by rw [h], fun page => by rw [h]⟩

/-- C10: any author name offered by `authorOptions` (an element of
`uniqueAuthors`) selects a non-empty filtered list on a non-empty collection,
and page 0 of it is non-empty, so the "no books found" branch cannot be
reached from the offered options. -/
theorem C10_offered_options_nonempty (posts : List Post) (name : String)
    (hne : posts ≠ []) (hmem : name ∈ uniqueAuthors posts) :
    filteredPosts posts (some { value := name, label := name }) ≠ []
      ∧ currentPagePosts
          (filteredPosts posts (some { value := name, label := name })) 0 ≠ [] := by
  have hfp : filteredPosts posts (some { value := name, label := name }) ≠ [] := by
    by_cases hn : name = ""
    · simpa [filteredPosts, hn] using hne
    · have hmem2 : name ∈ posts.map (fun post => post.author.name) :=
        (mem_uniqueAuthors posts name).mp hmem
      rcases List.mem_map.mp hmem2 with ⟨p, hp, hpn⟩
      have hpin : p ∈ filteredPosts posts (some { value := name, label := name }) := by
        simp only [filteredPosts, if_neg hn]
        exact List.mem_filter.mpr ⟨hp, by simp [hpn]⟩
      intro hc
      rw [hc] at hpin
      exact (List.not_mem_nil p) hpin
  refine ⟨hfp, ?_⟩
  have hlen : 0 < (filteredPosts posts (some { value := name, label := name })).length :=
    List.length_pos.mpr hfp
  intro hc
  have h0 := length_currentPagePosts
    (filteredPosts posts (some { value := name, label := name })) 0
  rw [hc] at h0
  simp only [POSTS_PER_PAGE, offset, List.length_nil] at h0
  omega

/-- C10 witness: selecting the only author of a singleton collection. -/
theorem C10_witness :
    ([mkPost "Alice"] : List Post) ≠ []
      ∧ "Alice" ∈ uniqueAuthors [mkPost "Alice"]
      ∧ filteredPosts [mkPost "Alice"]
          (some { value := "Alice", label := "Alice" }) ≠ [] :=
  ⟨by decide, by decide,
    (C10_offered_options_nonempty [mkPost "Alice"] "Alice"
      (by decide) (by decide)).1⟩

end App
